import Mathlib

/-!
Shallow embedding of the interval timer and report generator of SDE_CRA.py
(class ECtimes, lines 286 to 344), together with theorems settling the
behavioural claims about it.

Modelling choices:
- Timestamps (Python datetime values produced by dt.now()) are modelled as
  integers counting whole seconds.  Differences of datetimes are timedelta
  objects whose total_seconds() is then an exact integral float, rendered by
  Python str() as the digits followed by ".0"; floatStr models that rendering.
- The timer state self.lst_time is modelled as a List Event; time_stamp takes
  the current clock reading as an explicit argument.
- Python 2 dict iteration order is irrelevant to the result: per-group work is
  independent, and the emitted lines are sorted by key before concatenation.
-/

/-- One element of self.lst_time: the list [group, dt.now(), stst, text]
appended by ECtimes.time_stamp (line 309). -/
structure Event where
  group : String
  time : Int
  stst : String
  text : String
  deriving DecidableEq

/-- One element of a per-group series: stamp[1:] (line 320), i.e. the list
[timestamp, stst, text] with the group key dropped. -/
structure Stamp where
  time : Int
  stst : String
  text : String
  deriving DecidableEq

/-- ECtimes.time_stamp (lines 299 to 310): a phase other than "start" or
"stop" is replaced by the sentinel "stst", then one entry is appended. -/
def time_stamp (lst : List Event) (group : String) (now : Int)
    (stst : String) (text : String) : List Event :=
  let stst := if stst = "start" ∨ stst = "stop" then stst else "stst"
  lst ++ [⟨group, now, stst, text⟩]

/-- The series dic_groups[g] built by the grouping loop (lines 317 to 320):
the stamps of the events whose group is g, in log order. -/
def groupStamps (lst : List Event) (g : String) : List Stamp :=
  (lst.filter (fun e => e.group == g)).map (fun e => ⟨e.time, e.stst, e.text⟩)

/-- Lexicographic strict comparison of character lists, the order Python uses
on strings (written as an executable function; charsLt_iff relates it to the
standard order on String). -/
def charsLt : List Char → List Char → Bool
  | [], [] => false
  | [], _ :: _ => true
  | _ :: _, [] => false
  | c :: cs, d :: ds =>
    if c < d then true else if d < c then false else charsLt cs ds

/-- Python string comparison a < b. -/
def strLt (a b : String) : Prop :=
  charsLt a.data b.data = true

/-- Python string comparison a <= b, i.e. not (b < a). -/
def strLe (a b : String) : Prop :=
  ¬strLt b a

instance : DecidableRel strLt := fun a b => by
  unfold strLt
  infer_instance

instance : DecidableRel strLe := fun a b => by
  unfold strLe
  infer_instance

/-- Python list comparison on [timestamp, stst, text]: lexicographic by
timestamp, then phase string, then text. -/
def stampLe (a b : Stamp) : Prop :=
  a.time < b.time ∨ (a.time = b.time ∧
    (strLt a.stst b.stst ∨ (a.stst = b.stst ∧ strLe a.text b.text)))

instance : DecidableRel stampLe := fun a b => by
  unfold stampLe
  infer_instance

/-- series.sort() (line 326). -/
def sortStamps (s : List Stamp) : List Stamp :=
  List.insertionSort stampLe s

/-- The pair walk (lines 327 to 337): at each even index, accumulate the
difference only when the pair reads ("start", "stop"); every other shape of
pair falls into a pass branch and contributes nothing.  The source only runs
this walk on even-length series (odd lengths were skipped at line 324), so the
singleton case is never reached there. -/
def walkPairs : List Stamp → Int
  | a :: b :: rest =>
    (if a.stst = "start" then
      if b.stst = "stop" then b.time - a.time else 0
    else 0) + walkPairs rest
  | _ => 0

/-- The deltatime accumulated for group g by time_report: the pair walk over
the sorted series of g. -/
def reportedDuration (lst : List Event) (g : String) : Int :=
  walkPairs (sortStamps (groupStamps lst g))

/-- Python str() of a float of integral value: digits followed by ".0". -/
def floatStr (n : Int) : String :=
  toString n ++ ".0"

/-- dic_report[group] (line 338): the formatted line for one group. -/
def groupLine (lst : List Event) (g : String) : String :=
  "group: " ++ g ++ " = " ++ floatStr (reportedDuration lst g) ++ " seconds"

/-- rep_keys after rep_keys.sort() (lines 339 to 340): the distinct groups of
the log whose series length is not odd (line 324), sorted as strings. -/
def reportKeys (lst : List Event) : List String :=
  List.insertionSort strLe
    (((lst.map Event.group).dedup).filter
      (fun g => !((groupStamps lst g).length % 2 == 1)))

/-- The lines of the report, in emission order. -/
def reportLines (lst : List Event) : List String :=
  (reportKeys lst).map (groupLine lst)

/-- ECtimes.time_report (lines 312 to 343): each line is appended to the
report preceded by a newline (line 342). -/
def time_report (lst : List Event) : String :=
  (reportLines lst).foldl (fun acc line => acc ++ "\n" ++ line) ""

/-- The time_report method as a transition on the instance state
self.lst_time: the body only reads self.lst_time (line 317); the in-place
series.sort() at line 326 mutates fresh lists built from slices at line 320,
so the state is returned unchanged. -/
def time_report_call (s : List Event) : List Event × String :=
  (s, time_report s)

/-- Spec-side predicate (for comparison with the code): the series is a
sequence of well-formed (start, stop) pairs. -/
def specWellFormed : List Stamp → Bool
  | [] => true
  | [_] => false
  | a :: b :: rest => (a.stst == "start") && (b.stst == "stop") && specWellFormed rest

/-- Spec-side value (for comparison with the code): the sum of
(stop_i - start_i) over the consecutive pairs, ignoring the gaps between
pairs. -/
def specPairSum : List Stamp → Int
  | a :: b :: rest => (b.time - a.time) + specPairSum rest
  | _ => 0

/-! Concrete logs used by witnesses and counterexamples. -/

/-- Two well-formed pairs under label "a", with a gap between the pairs. -/
def logC1 : List Event :=
  time_stamp (time_stamp (time_stamp (time_stamp [] "a" 1 "start" "")
    "a" 4 "stop" "") "a" 10 "start" "") "a" 11 "stop" ""

/-- The build/deploy scenario of the spec: build start at 0, stop at 5;
deploy start at 2, stop at 9. -/
def logC2 : List Event :=
  time_stamp (time_stamp (time_stamp (time_stamp [] "build" 0 "start" "")
    "build" 5 "stop" "") "deploy" 2 "start" "") "deploy" 9 "stop" ""

/-- Three events under label "x": two starts then one stop. -/
def logC3 : List Event :=
  time_stamp (time_stamp (time_stamp [] "x" 0 "start" "") "x" 1 "start" "")
    "x" 2 "stop" ""

/-- Two events under label "x", both with invalid phases. -/
def logC4 : List Event :=
  time_stamp (time_stamp [] "x" 0 "foo" "") "x" 1 "bar" ""

/-- One start, one stop and one invalid-phase event under label "x". -/
def logC10a : List Event :=
  time_stamp (time_stamp (time_stamp [] "x" 0 "start" "") "x" 5 "stop" "")
    "x" 7 "oops" ""

/-- Two invalid-phase events under label "y". -/
def logC10b : List Event :=
  time_stamp (time_stamp [] "y" 0 "foo" "") "y" 1 "bar" ""

/-! Helper lemmas, shared by the claim theorems. -/

/-- On a series of well-formed (start, stop) pairs, the guarded pair walk of
time_report accumulates every pair. -/
theorem walkPairs_of_specWellFormed :
    ∀ s : List Stamp, specWellFormed s = true → walkPairs s = specPairSum s
  | [], _ => rfl
  | [_], h => by simp [specWellFormed] at h
  | a :: b :: rest, h => by
    simp only [specWellFormed, Bool.and_eq_true, beq_iff_eq] at h
    simp [walkPairs, specPairSum, h.1.1, h.1.2,
      walkPairs_of_specWellFormed rest h.2]

/-- A series with no "start" stamp accumulates nothing in the pair walk. -/
theorem walkPairs_eq_zero_of_no_start :
    ∀ s : List Stamp, (∀ a ∈ s, a.stst ≠ "start") → walkPairs s = 0
  | [], _ => rfl
  | [_], _ => rfl
  | a :: b :: rest, h => by
    have ha := h a (by simp)
    rw [walkPairs, walkPairs_eq_zero_of_no_start rest
      (fun x hx => h x (by simp [hx]))]
    simp [ha]

/-- Splitting the pair walk at an even position. -/
theorem walkPairs_append_even :
    ∀ pre : List Stamp, pre.length % 2 = 0 →
      ∀ tail, walkPairs (pre ++ tail) = walkPairs pre + walkPairs tail
  | [], _, tail => by simp [walkPairs]
  | [_], h, tail => by simp at h
  | a :: b :: rest, h, tail => by
    have hrest : rest.length % 2 = 0 := by
      simp only [List.length_cons] at h
      omega
    simp only [List.cons_append, walkPairs, List.append_eq]
    rw [walkPairs_append_even rest hrest tail]
    ring

/-- The executable comparison charsLt agrees with the lexicographic order on
character lists. -/
theorem charsLt_iff :
    ∀ l₁ l₂ : List Char, charsLt l₁ l₂ = true ↔ List.lt l₁ l₂
  | [], [] => by
    constructor
    · intro h
      simp [charsLt] at h
    · intro h
      cases h
  | [], d :: ds => by
    constructor
    · intro _
      exact List.lt.nil d ds
    · intro _
      rfl
  | c :: cs, [] => by
    constructor
    · intro h
      simp [charsLt] at h
    · intro h
      cases h
  | c :: cs, d :: ds => by
    by_cases hcd : c < d
    · constructor
      · intro _
        exact List.lt.head cs ds hcd
      · intro _
        simp [charsLt, hcd]
    · by_cases hdc : d < c
      · constructor
        · intro h
          simp [charsLt, hcd, hdc] at h
        · intro h
          cases h with
          | head _ _ h => exact absurd h hcd
          | tail _ h _ => exact absurd hdc h
      · have hrec := charsLt_iff cs ds
        constructor
        · intro h
          simp only [charsLt, if_neg hcd, if_neg hdc] at h
          exact List.lt.tail hcd hdc (hrec.mp h)
        · intro h
          simp only [charsLt, if_neg hcd, if_neg hdc]
          cases h with
          | head _ _ h => exact absurd h hcd
          | tail _ _ h => exact hrec.mpr h

/-- strLt is the standard strict order on String. -/
theorem strLt_iff (a b : String) : strLt a b ↔ a < b := by
  rw [String.lt_iff_toList_lt]
  show charsLt a.data b.data = true ↔ List.Lex (· < ·) a.data b.data
  rw [← List.lt_iff_lex_lt]
  exact charsLt_iff a.data b.data

/-- strLe is the standard order on String. -/
theorem strLe_iff (a b : String) : strLe a b ↔ a ≤ b := by
  rw [strLe, not_congr (strLt_iff b a)]
  exact not_lt

instance strLe.isTotal : IsTotal String strLe :=
  ⟨fun a b => by
    rw [strLe_iff, strLe_iff]
    exact le_total a b⟩

instance strLe.isTrans : IsTrans String strLe :=
  ⟨fun a b c hab hbc => by
    rw [strLe_iff] at hab hbc ⊢
    exact le_trans hab hbc⟩

/-- Membership in the sorted key list of the report. -/
theorem mem_reportKeys (lst : List Event) (g : String) :
    g ∈ reportKeys lst ↔
      (g ∈ lst.map Event.group ∧ ¬(groupStamps lst g).length % 2 = 1) := by
  unfold reportKeys
  rw [(List.perm_insertionSort _ _).mem_iff, List.mem_filter, List.mem_dedup]
  simp

/-! The claims. -/

/-- C1: for every label whose series, sorted as time_report sorts it, is a
sequence of well-formed (start, stop) pairs, the duration accumulated by
time_report equals the exact sum of (stop - start) over the pairs,
independent of the gaps between pairs. -/
theorem C1_duration_eq_pair_sum (lst : List Event) (g : String)
    (h : specWellFormed (sortStamps (groupStamps lst g)) = true) :
    reportedDuration lst g = specPairSum (sortStamps (groupStamps lst g)) :=
  walkPairs_of_specWellFormed _ h

theorem C1_witness :
    specWellFormed (sortStamps (groupStamps logC1 "a")) = true ∧
      reportedDuration logC1 "a" = specPairSum (sortStamps (groupStamps logC1 "a")) :=
  ⟨by decide, C1_duration_eq_pair_sum logC1 "a" (by decide)⟩

/-- C2 counterexample: on the build/deploy scenario the returned text is not
the claimed string (the code renders "group: <label> = <secs> seconds" and
prefixes every line, the first included, with a newline). -/
theorem C2_counterexample :
    time_report logC2 ≠ "build: 5.0 seconds\ndeploy: 7.0 seconds" := by decide

/-- C2 amended: each reported label yields the line
"group: <label> = <total_seconds> seconds", every line preceded by a newline,
so the build/deploy scenario returns
"\ngroup: build = 5.0 seconds\ngroup: deploy = 7.0 seconds". -/
theorem C2_amended_format :
    reportLines logC2 =
        ["group: build = 5.0 seconds", "group: deploy = 7.0 seconds"] ∧
      time_report logC2 =
        "\ngroup: build = 5.0 seconds\ngroup: deploy = 7.0 seconds" := by decide

/-- C3: a label whose series has an odd number of events is not among the
report keys, hence contributes no line; time_report is total, so no error is
raised. -/
theorem C3_odd_group_skipped (lst : List Event) (g : String)
    (h : (groupStamps lst g).length % 2 = 1) : g ∉ reportKeys lst := by
  intro hmem
  exact ((mem_reportKeys lst g).mp hmem).2 h

theorem C3_witness :
    (groupStamps logC3 "x").length % 2 = 1 ∧ "x" ∉ reportKeys logC3 :=
  ⟨by decide, C3_odd_group_skipped logC3 "x" (by decide)⟩

/-- C4 counterexample: a label recorded only with invalid phases (stored as
the sentinel) does produce a line when its event count is even: the events
are not excluded from grouping, so the label is reported with 0.0 seconds. -/
theorem C4_counterexample :
    (∀ e ∈ logC4, e.stst = "stst") ∧ "x" ∈ reportKeys logC4 ∧
      time_report logC4 = "\ngroup: x = 0.0 seconds" := by decide

/-- C4 amended: sentinel events contribute zero duration and raise no error,
but they are not excluded from grouping: a label all of whose stamps are
sentinel stamps is reported (with 0.0 seconds) exactly when it occurs in the
log with an even event count, and omitted when the count is odd. -/
theorem C4_amended_sentinel_groups (lst : List Event) (g : String)
    (h : ∀ s ∈ groupStamps lst g, s.stst = "stst") :
    reportedDuration lst g = 0 ∧
      (g ∈ reportKeys lst ↔
        (g ∈ lst.map Event.group ∧ ¬(groupStamps lst g).length % 2 = 1)) := by
  refine ⟨?_, mem_reportKeys lst g⟩
  apply walkPairs_eq_zero_of_no_start
  intro a ha
  have hmem : a ∈ groupStamps lst g :=
    ((List.perm_insertionSort _ _).mem_iff).mp ha
  rw [h a hmem]
  decide

theorem C4_witness :
    (∀ s ∈ groupStamps logC4 "x", s.stst = "stst") ∧
      (reportedDuration logC4 "x" = 0 ∧
        ("x" ∈ reportKeys logC4 ↔
          ("x" ∈ logC4.map Event.group ∧
            ¬(groupStamps logC4 "x").length % 2 = 1))) :=
  ⟨by decide, C4_amended_sentinel_groups logC4 "x" (by decide)⟩

/-- C5: a consecutive pair at an even index of the sorted series that is not
(start, stop) contributes zero to the walk, and the walk of the remaining
pairs is unchanged; the walk is total, so no error is raised. -/
theorem C5_malformed_pair_contributes_zero (pre post : List Stamp)
    (a b : Stamp) (hpre : pre.length % 2 = 0)
    (hbad : ¬(a.stst = "start" ∧ b.stst = "stop")) :
    walkPairs (pre ++ a :: b :: post) = walkPairs (pre ++ post) := by
  rw [walkPairs_append_even pre hpre, walkPairs_append_even pre hpre]
  have hpair : walkPairs (a :: b :: post) = walkPairs post := by
    by_cases ha : a.stst = "start"
    · have hb : ¬b.stst = "stop" := fun hb => hbad ⟨ha, hb⟩
      simp [walkPairs, ha, hb]
    · simp [walkPairs, ha]
  rw [hpair]

theorem C5_witness :
    ([] : List Stamp).length % 2 = 0 ∧
      ¬((Stamp.mk 0 "stop" "").stst = "start" ∧
        (Stamp.mk 1 "start" "").stst = "stop") ∧
      walkPairs ([] ++ Stamp.mk 0 "stop" "" :: Stamp.mk 1 "start" "" ::
          [Stamp.mk 2 "start" "", Stamp.mk 3 "stop" ""]) =
        walkPairs ([] ++ [Stamp.mk 2 "start" "", Stamp.mk 3 "stop" ""]) :=
  ⟨by decide, by decide,
    C5_malformed_pair_contributes_zero []
      [Stamp.mk 2 "start" "", Stamp.mk 3 "stop" ""]
      (Stamp.mk 0 "stop" "") (Stamp.mk 1 "start" "")
      (by decide) (by decide)⟩

/-- C6: time_stamp appends exactly one event, carrying the given clock
reading; an invalid phase is stored as the sentinel "stst" instead of being
rejected, and the existing entries are left unchanged; the function is total,
so it always succeeds. -/
theorem C6_time_stamp_appends_one (lst : List Event) (g : String) (now : Int)
    (stst text : String) :
    time_stamp lst g now stst text =
      lst ++ [⟨g, now,
        if stst = "start" ∨ stst = "stop" then stst else "stst", text⟩] ∧
      (time_stamp lst g now stst text).length = lst.length + 1 ∧
      (time_stamp lst g now stst text).take lst.length = lst := by
  refine ⟨rfl, ?_, ?_⟩
  · simp [time_stamp]
  · simp [time_stamp, List.take_left]

/-- C7: the report keys are sorted lexicographically ascending for every log,
and the report lines follow the key order; hence line order never depends on
recording order. -/
theorem C7_report_sorted (lst : List Event) :
    (reportKeys lst).Sorted (· ≤ ·) ∧
      reportLines lst = (reportKeys lst).map (groupLine lst) :=
  ⟨(List.sorted_insertionSort strLe _).imp (fun h => (strLe_iff _ _).mp h), rfl⟩

/-- C8: time_report reads the log and mutates nothing, so as a transition on
the instance state it returns the state unchanged, and a second call on the
resulting state returns the same text. -/
theorem C8_idempotent_readonly (s : List Event) :
    (time_report_call s).1 = s ∧
      (time_report_call (time_report_call s).1).2 = (time_report_call s).2 :=
  ⟨rfl, rfl⟩

/-- C9: the duration computed for label B depends only on the events of B:
it equals the duration computed from the log restricted to B. -/
theorem C9_label_isolation (lst : List Event) (B : String) :
    reportedDuration lst B =
      reportedDuration (lst.filter (fun e => e.group == B)) B := by
  unfold reportedDuration sortStamps
  congr 2
  simp [groupStamps, List.filter_filter]

/-- C10: sentinel events are not filtered out before pairing: with one start,
one stop and one invalid event the label has an odd count and produces no
line, while a label with an even number of sentinel-only events produces a
line reporting 0.0 seconds. -/
theorem C10_sentinels_occupy_positions :
    ("x" ∉ reportKeys logC10a) ∧ time_report logC10a = "" ∧
      time_report logC10b = "\ngroup: y = 0.0 seconds" := by decide
